import Mathlib

/-!
Shallow embedding of `src/digital_drone/gpsd/libgps/hex.c`.

Buffers are modelled as `List Nat` (byte values) for binary data and
`List Char` for C strings (the implicit NUL terminator is the end of the
list; the lists therefore contain no NUL).  `size_t` arithmetic that can
wrap (the `scbuflen - 3` headroom subtraction in `gps_hexdump`) is made
explicit with `% 2^64`.  Functions that store into a caller buffer are
modelled twice: once returning the string/bytes actually produced, and
once returning the list of destination indices stored to (`*_writes`),
so that capacity-safety claims are about the real store footprint,
including every intermediate and final NUL written.
-/

/-- Modelled from the spec: the "large sanity cap" bounding `strnlen` in
`gps_hexpack` is `BUFSIZ` from `stdio.h`, which is not part of `src/`;
glibc defines it as 8192. -/
def BUFSIZ : Nat := 8192

/-- Modelled from the spec: the "fixed maximum packet length constant"
`MAX_PACKET_LENGTH` comes from the gpsd headers, which are not part of
`src/`; gpsd defines it as 9216. -/
def MAX_PACKET_LENGTH : Nat := 9216

/-- C-locale `isprint`: the printable characters are 0x20..0x7e. -/
def isprintB (b : Nat) : Bool := 0x20 ≤ b && b ≤ 0x7e

/-- C-locale `isspace`: space and 0x09..0x0d. -/
def isspaceB (b : Nat) : Bool := b == 0x20 || (0x09 ≤ b && b ≤ 0x0d)

/-- The lookup table `const char *hexchar = "0123456789abcdef"` of
`gps_hexdump` (always indexed with a nibble value below 16). -/
def hexchar (n : Nat) : Char := "0123456789abcdef".toList.getD n '0'

/-- Wrapping `size_t` subtraction: `a - b` computed modulo `2^64`.
This makes the underflow of `scbuflen - 3` for `scbuflen < 3` explicit. -/
def wsub64 (a b : Nat) : Nat := (a + (2 ^ 64 - b)) % 2 ^ 64

/-- The two hex characters `gps_hexdump` emits for one input byte:
`hexchar[(ibuf[i] & 0xf0) >> 4]` then `hexchar[ibuf[i] & 0x0f]`
(the masks on the sign-extended `char` select the byte's nibbles). -/
def hexPairEnc (b : Nat) : List Char := [hexchar (b % 256 / 16), hexchar (b % 16)]

/-- The write loop of `gps_hexdump`: `for (i = 0; i < len && j < (scbuflen - 3); i++)`
emitting two hex characters per byte, with `j` the running output index
(always `2*i`) and `limit` the wrapped `scbuflen - 3`. -/
def hexdumpLoop (limit : Nat) : List Nat → Nat → List Char
  | [], _ => []
  | b :: rest, j =>
    if j < limit then hexchar (b % 256 / 16) :: hexchar (b % 16) :: hexdumpLoop limit rest (j + 2)
    else []

/-- `gps_hexdump`: the string written to `scbuf` (the characters before the
terminating NUL).  A `none` source models a NULL `binbuf` pointer. -/
def gps_hexdump (scbuflen : Nat) (binbuf : Option (List Nat)) : List Char :=
  match binbuf with
  | none => []
  | some bs =>
    if bs.length = 0 then []
    else hexdumpLoop (wsub64 scbuflen 3) (bs.take (min bs.length MAX_PACKET_LENGTH)) 0

/-- The destination indices `gps_hexdump`'s loop stores to, two per pair
plus the final NUL store `scbuf[j] = '\0'`. -/
def hexdumpWritesLoop (limit : Nat) : List Nat → Nat → List Nat
  | [], j => [j]
  | _ :: rest, j =>
    if j < limit then j :: (j + 1) :: hexdumpWritesLoop limit rest (j + 2)
    else [j]

/-- Every destination index `gps_hexdump` stores to, including the
terminating NUL (`scbuf[0] = '\0'` on the NULL/empty path, which happens
regardless of `scbuflen`). -/
def gps_hexdump_writes (scbuflen : Nat) (binbuf : Option (List Nat)) : List Nat :=
  match binbuf with
  | none => [0]
  | some bs =>
    if bs.length = 0 then [0]
    else hexdumpWritesLoop (wsub64 scbuflen 3) (bs.take (min bs.length MAX_PACKET_LENGTH)) 0

/-- `gpsd_packetdump`: NULL source yields `""`; an all printable-or-space
source is returned unchanged; otherwise the hex dump of it is returned. -/
def gpsd_packetdump (scbuflen : Nat) (binbuf : Option (List Nat)) : List Char :=
  match binbuf with
  | none => []
  | some bs =>
    if bs.all (fun b => isprintB b || isspaceB b) then bs.map (fun b => Char.ofNat b)
    else gps_hexdump scbuflen (some bs)

/-- The per-digit range checks of `hex2bin` (`'a'..'f'`, then `'A'..'F'`,
then `'0'..'9'`, else fail), returning the digit value. -/
def hexDigitVal (c : Char) : Option Nat :=
  if 'a' ≤ c ∧ c ≤ 'f' then some (c.toNat + 10 - 'a'.toNat)
  else if 'A' ≤ c ∧ c ≤ 'F' then some (c.toNat + 10 - 'A'.toNat)
  else if '0' ≤ c ∧ c ≤ '9' then some (c.toNat - '0'.toNat)
  else none

/-- `hex2bin`: decode two hex characters into one byte `(a << 4) + b`;
`none` models the C return value -1. -/
def hex2bin (a b : Char) : Option Nat :=
  match hexDigitVal a with
  | none => none
  | some x =>
    match hexDigitVal b with
    | none => none
    | some y => some (x * 16 + y)

/-- The decode loop of `gps_hexpack`: decode `j` pairs from the front of
the source, failing (`none`, the C return -1) at the first bad pair. -/
def packPairs : Nat → List Char → Option (List Nat)
  | 0, _ => some []
  | j + 1, a :: b :: rest =>
    (match hex2bin a b with
     | none => none
     | some k => (packPairs j rest).map (fun t => k :: t))
  | _ + 1, _ => none

/-- `gps_hexpack`: `j = strnlen(src, BUFSIZ) / 2` pairs; `-2` when
`1 > j || j > len`; `-1` on a bad pair; on success the return count `j`
together with the final destination contents (decoded bytes then the
`memset` zero fill up to `len`). -/
def gps_hexpack (src : List Char) (len : Nat) : Except Int (Nat × List Nat) :=
  let j := min src.length BUFSIZ / 2
  if j < 1 ∨ len < j then Except.error (-2)
  else
    match packPairs j src with
    | none => Except.error (-1)
    | some ds => Except.ok (j, ds ++ List.replicate (len - j) 0)

/-- The single-character escape cases of `hex_escapes`' outer `switch`
(everything except `x`); note the source's `case 't'` stores `'\r'`
(0x0d), not `'\t'`. -/
def escByte (e : Char) : Option Nat :=
  if e = 'b' then some 0x08
  else if e = 'e' then some 0x1b
  else if e = 'f' then some 0x0c
  else if e = 'n' then some 0x0a
  else if e = 'r' then some 0x0d
  else if e = 't' then some 0x0d
  else if e = 'v' then some 0x0b
  else if e = '\\' then some 0x5c
  else none

/-- `hex_escapes`: the bytes written to `cooked` on success (the C return
value is their count), or the negative error code.  The match arms flatten
the C control flow: a backslash at the end of the string makes the outer
`switch` consume the NUL and hit `default` (-3); `\x` at the end makes the
first hex `switch` consume the NUL (-1); `\x` plus one valid hex digit at
the end makes the second hex `switch` consume the NUL (-2).  The first hex
digit contributes `value * 16` (the `0x00..0xf0` cases of the first inner
switch), the second adds `value` (the `0x00..0x0f` cases of the second). -/
def hex_escapes : List Char → Except Int (List Nat)
  | [] => Except.ok []
  | ['\\'] => Except.error (-3)
  | ['\\', 'x'] => Except.error (-1)
  | ['\\', 'x', d1] =>
    match hexDigitVal d1 with
    | none => Except.error (-1)
    | some _ => Except.error (-2)
  | '\\' :: 'x' :: d1 :: d2 :: rest4 =>
    match hexDigitVal d1 with
    | none => Except.error (-1)
    | some hv =>
      match hexDigitVal d2 with
      | none => Except.error (-2)
      | some lv => (hex_escapes rest4).map (fun bs => (hv * 16 + lv) :: bs)
  | '\\' :: e :: rest2 =>
    match escByte e with
    | none => Except.error (-3)
    | some b => (hex_escapes rest2).map (fun bs => b :: bs)
  | c :: rest => (hex_escapes rest).map (fun bs => c.toNat :: bs)

/-- What `gps_visibilize` emits for one input byte: a printable byte is
copied (`snprintf "%c"`), a non-printable byte becomes `\xHH` with two
lowercase hex digits of `0x00ff & (unsigned)*sp`. -/
def visEnc (b : Nat) : List Char :=
  if isprintB b then [Char.ofNat b]
  else ['\\', 'x', hexchar (b % 256 / 16), hexchar (b % 256 % 16)]

/-- The loop of `gps_visibilize`: `for (...; sp < inbuf + inlen && (next + 6) < outlen; sp++)`,
advancing `next` by the `snprintf` return (1 or 4). -/
def visLoop (outlen : Nat) : List Nat → Nat → List Char
  | [], _ => []
  | b :: rest, next =>
    if next + 6 < outlen then
      visEnc b ++ visLoop outlen rest (next + (if isprintB b then 1 else 4))
    else []

/-- `gps_visibilize`: the string left in `outbuf` (characters before the
final NUL). -/
def gps_visibilize (outlen : Nat) (inbuf : List Nat) : List Char :=
  visLoop outlen inbuf 0

/-- The store footprint of `gps_visibilize`'s loop: a printable byte's
`snprintf(&outbuf[next], 2, "%c", ...)` stores at `next` and `next + 1`
(its NUL); an escape's `snprintf(&outbuf[next], 6, "\xHH")` stores at
`next .. next + 4`. -/
def visWritesLoop (outlen : Nat) : List Nat → Nat → List Nat
  | [], _ => []
  | b :: rest, next =>
    if next + 6 < outlen then
      (if isprintB b then [next, next + 1] else [next, next + 1, next + 2, next + 3, next + 4]) ++
        visWritesLoop outlen rest (next + (if isprintB b then 1 else 4))
    else []

/-- Every destination index `gps_visibilize` stores to, starting with the
unconditional `outbuf[0] = '\0'`. -/
def gps_visibilize_writes (outlen : Nat) (inbuf : List Nat) : List Nat :=
  0 :: visWritesLoop outlen inbuf 0

/-- The claim's stop rule for the visibilize loop, written from the spec's
words for comparison with the source's loop: continue while the source is
not exhausted and the next worst-case 4-character write, its terminator
included, still fits within the first `capacity - 1` cells
(`next + 4 < outlen - 1`).  The source's guard is `next + 6 < outlen`,
which is stricter by one byte at the boundary. -/
def visLoopClaimed (outlen : Nat) : List Nat → Nat → List Char
  | [], _ => []
  | b :: rest, next =>
    if next + 4 < outlen - 1 then
      visEnc b ++ visLoopClaimed outlen rest (next + (if isprintB b then 1 else 4))
    else []

/-- `gps_visibilize` as the claim's stop rule would have it. -/
def gps_visibilize_claimed (outlen : Nat) (inbuf : List Nat) : List Char :=
  visLoopClaimed outlen inbuf 0

/-! ## Helper lemmas -/

theorem hexDigitVal_hexchar : ∀ n < 16, hexDigitVal (hexchar n) = some n := by decide

theorem except_map_ok_iff {ε α β : Type} (f : α → β) (x : Except ε α) (b : β) :
    x.map f = Except.ok b ↔ ∃ a, x = Except.ok a ∧ b = f a := by
  cases x with
  | error e => simp [Except.map]
  | ok a => simp only [Except.map, Except.ok.injEq]; exact ⟨fun h => ⟨a, rfl, h.symm⟩,
      fun ⟨a', ha, hb⟩ => by cases ha; exact hb.symm⟩

theorem except_map_error_iff {ε α β : Type} (f : α → β) (x : Except ε α) (e : ε) :
    x.map f = Except.error e ↔ x = Except.error e := by
  cases x <;> simp [Except.map]

theorem wsub64_sub (c : Nat) (h3 : 3 ≤ c) (h : c < 2 ^ 64) : wsub64 c 3 = c - 3 := by
  unfold wsub64
  have h1 : c + (2 ^ 64 - 3) = (c - 3) + 2 ^ 64 := by omega
  rw [h1, Nat.add_mod_right, Nat.mod_eq_of_lt (by omega)]

theorem hexdumpLoop_full : ∀ (bs : List Nat) (limit j : Nat),
    j + 2 * bs.length ≤ limit + 1 → hexdumpLoop limit bs j = bs.flatMap hexPairEnc := by
  intro bs
  induction bs with
  | nil => intro limit j h; simp [hexdumpLoop]
  | cons b rest ih =>
    intro limit j h
    simp only [List.length_cons] at h
    have hj : j < limit := by omega
    simp only [hexdumpLoop, if_pos hj, List.flatMap_cons, hexPairEnc, List.cons_append,
      List.nil_append]
    rw [ih limit (j + 2) (by omega)]

theorem hexdumpWritesLoop_full : ∀ (bs : List Nat) (limit j : Nat),
    j + 2 * bs.length ≤ limit + 1 →
    hexdumpWritesLoop limit bs j = List.range' j (2 * bs.length) ++ [j + 2 * bs.length] := by
  intro bs
  induction bs with
  | nil => intro limit j h; simp [hexdumpWritesLoop]
  | cons b rest ih =>
    intro limit j h
    simp only [List.length_cons] at h
    have hj : j < limit := by omega
    simp only [hexdumpWritesLoop, if_pos hj]
    rw [ih limit (j + 2) (by omega)]
    simp only [List.length_cons]
    rw [show 2 * (rest.length + 1) = 2 * rest.length + 1 + 1 by ring]
    rw [List.range'_succ, List.range'_succ]
    simp only [List.cons_append]
    have e2 : j + 1 + 1 = j + 2 := by omega
    have e3 : j + (2 * rest.length + 1 + 1) = j + 2 + 2 * rest.length := by omega
    rw [e2, e3]

theorem hexdumpWritesLoop_lt (limit : Nat) : ∀ (bs : List Nat) (j : Nat), j ≤ limit + 1 →
    ∀ i ∈ hexdumpWritesLoop limit bs j, i < limit + 3 := by
  intro bs
  induction bs with
  | nil => intro j hj i hi; simp [hexdumpWritesLoop] at hi; omega
  | cons b rest ih =>
    intro j hj i hi
    by_cases hlt : j < limit
    · simp only [hexdumpWritesLoop, if_pos hlt, List.mem_cons] at hi
      rcases hi with h | h | h
      · omega
      · omega
      · exact ih (j + 2) (by omega) i h
    · simp [hexdumpWritesLoop, hlt] at hi; omega

theorem length_flatMap_hexPairEnc : ∀ bs : List Nat, (bs.flatMap hexPairEnc).length = 2 * bs.length := by
  intro bs
  induction bs with
  | nil => simp
  | cons b rest ih => simp [List.flatMap_cons, hexPairEnc, ih]; ring

theorem pairs_le (n : Nat) : 2 * (min n BUFSIZ / 2) ≤ n := by
  have h1 : min n BUFSIZ / 2 * 2 ≤ min n BUFSIZ := Nat.div_mul_le_self _ 2
  have h2 : min n BUFSIZ ≤ n := Nat.min_le_left _ _
  omega

theorem packPairs_length : ∀ (j : Nat) (src : List Char) (t : List Nat),
    packPairs j src = some t → t.length = j := by
  intro j
  induction j with
  | zero => intro src t h; simp [packPairs] at h; simp [← h]
  | succ j ih =>
    intro src t h
    match src with
    | [] => simp [packPairs] at h
    | [a] => simp [packPairs] at h
    | a :: b :: rest =>
      simp only [packPairs] at h
      cases hab : hex2bin a b with
      | none => rw [hab] at h; simp at h
      | some k =>
        rw [hab] at h
        rcases Option.map_eq_some'.mp h with ⟨t', ht', rfl⟩
        simp [ih rest t' ht']

theorem hex2bin_eq_none_iff (a b : Char) :
    hex2bin a b = none ↔ ((hexDigitVal a).isNone = true ∨ (hexDigitVal b).isNone = true) := by
  unfold hex2bin
  cases hexDigitVal a <;> cases hexDigitVal b <;> simp

theorem packPairs_none_iff : ∀ (j : Nat) (src : List Char), 2 * j ≤ src.length →
    (packPairs j src = none ↔
      (src.take (2 * j)).any (fun ch => (hexDigitVal ch).isNone) = true) := by
  intro j
  induction j with
  | zero => intro src h; simp [packPairs]
  | succ j ih =>
    intro src h
    match src with
    | [] => simp at h
    | [a] => simp at h; omega
    | a :: b :: rest =>
      simp only [List.length_cons] at h
      have h2 : 2 * (j + 1) = 2 * j + 1 + 1 := by ring
      rw [h2, List.take_succ_cons, List.take_succ_cons]
      simp only [packPairs, List.any_cons]
      cases hab : hex2bin a b with
      | none =>
        rcases (hex2bin_eq_none_iff a b).mp hab with hbad | hbad <;>
          simp [hbad]
      | some k =>
        have ha : (hexDigitVal a).isNone = false := by
          unfold hex2bin at hab; cases hda : hexDigitVal a <;> rw [hda] at hab <;> simp at hab ⊢
        have hb : (hexDigitVal b).isNone = false := by
          unfold hex2bin at hab
          cases hda : hexDigitVal a <;> rw [hda] at hab
          · simp at hab
          · cases hdb : hexDigitVal b <;> rw [hdb] at hab <;> simp at hab ⊢
        simp only [ha, hb, Bool.false_or, Option.map_eq_none']
        exact ih rest (by omega)

theorem packPairs_flatMap : ∀ bs : List Nat, (∀ x ∈ bs, x < 256) →
    packPairs bs.length (bs.flatMap hexPairEnc) = some bs := by
  intro bs
  induction bs with
  | nil => intro h; simp [packPairs]
  | cons b rest ih =>
    intro h
    have hb : b < 256 := h b (List.mem_cons_self b rest)
    have hmod : b % 256 = b := Nat.mod_eq_of_lt hb
    have hhi : hexDigitVal (hexchar (b % 256 / 16)) = some (b % 256 / 16) :=
      hexDigitVal_hexchar _ (by omega)
    have hlo : hexDigitVal (hexchar (b % 16)) = some (b % 16) :=
      hexDigitVal_hexchar _ (by omega)
    have hbin : hex2bin (hexchar (b % 256 / 16)) (hexchar (b % 16)) = some b := by
      unfold hex2bin
      rw [hhi, hlo]
      show some (b % 256 / 16 * 16 + b % 16) = some b
      have hdm := Nat.div_add_mod b 16
      have h16 : b % 256 / 16 * 16 + b % 16 = b := by rw [hmod]; omega
      rw [h16]
    have hshape : (b :: rest).flatMap hexPairEnc
        = hexchar (b % 256 / 16) :: hexchar (b % 16) :: rest.flatMap hexPairEnc := by
      simp [hexPairEnc]
    rw [hshape]
    simp only [List.length_cons, packPairs, hbin]
    rw [ih (fun x hx => h x (List.mem_cons_of_mem b hx))]
    rfl

theorem packPairs_replicate_a : ∀ (j m : Nat), 2 * j ≤ m →
    packPairs j (List.replicate m 'a') = some (List.replicate j 170) := by
  intro j
  induction j with
  | zero => intro m h; simp [packPairs]
  | succ j ih =>
    intro m h
    match m, h with
    | m2 + 2, h =>
      rw [List.replicate_succ, List.replicate_succ]
      simp only [packPairs]
      have hbin : hex2bin 'a' 'a' = some 170 := by decide
      rw [hbin, ih m2 (by omega)]
      rfl

theorem flatMap_hexPairEnc_replicate170 : ∀ n : Nat,
    (List.replicate n (170 : Nat)).flatMap hexPairEnc = List.replicate (2 * n) 'a' := by
  intro n
  induction n with
  | zero => simp
  | succ n ih =>
    rw [List.replicate_succ, List.flatMap_cons, ih]
    rw [show 2 * (n + 1) = 2 * n + 1 + 1 by ring, List.replicate_succ, List.replicate_succ]
    have : hexPairEnc 170 = ['a', 'a'] := by decide
    rw [this]
    rfl

theorem hex_escapes_plain (c : Char) (rest : List Char) (hc : c ≠ '\\') :
    hex_escapes (c :: rest) = (hex_escapes rest).map (fun bs => c.toNat :: bs) :=
  hex_escapes.eq_7 c rest (fun h _ => hc h) (fun h _ => hc h) (fun _ h _ => hc h)
    (fun _ _ _ h _ => hc h) (fun _ _ h _ => hc h)

theorem hex_escapes_esc (e : Char) (rest2 : List Char) (he : e ≠ 'x') :
    hex_escapes ('\\' :: e :: rest2) =
      (match escByte e with
       | none => Except.error (-3)
       | some b => (hex_escapes rest2).map (fun bs => b :: bs)) :=
  hex_escapes.eq_6 e rest2 (fun h _ => he h) (fun _ h _ => he h) (fun _ _ _ h _ => he h)

theorem hex_escapes_esc_ok (e : Char) (rest2 : List Char) (b : Nat) (he : e ≠ 'x')
    (hb : escByte e = some b) :
    hex_escapes ('\\' :: e :: rest2) = (hex_escapes rest2).map (fun bs => b :: bs) := by
  rw [hex_escapes_esc e rest2 he, hb]

theorem hex_escapes_esc_bad (e : Char) (rest2 : List Char) (he : e ≠ 'x')
    (hb : escByte e = none) :
    hex_escapes ('\\' :: e :: rest2) = Except.error (-3) := by
  rw [hex_escapes_esc e rest2 he, hb]

theorem hex_escapes_x_bad1 (d1 d2 : Char) (rest4 : List Char) (h1 : hexDigitVal d1 = none) :
    hex_escapes ('\\' :: 'x' :: d1 :: d2 :: rest4) = Except.error (-1) := by
  rw [hex_escapes.eq_5, h1]

theorem hex_escapes_x_bad1_any (d1 : Char) (rest3 : List Char) (h1 : hexDigitVal d1 = none) :
    hex_escapes ('\\' :: 'x' :: d1 :: rest3) = Except.error (-1) := by
  cases rest3 with
  | nil => rw [hex_escapes.eq_4, h1]
  | cons d2 rest4 => exact hex_escapes_x_bad1 d1 d2 rest4 h1

theorem hex_escapes_x_one (d1 : Char) (hv : Nat) (h1 : hexDigitVal d1 = some hv) :
    hex_escapes ['\\', 'x', d1] = Except.error (-2) := by
  rw [hex_escapes.eq_4, h1]

theorem hex_escapes_x_bad2 (d1 d2 : Char) (rest4 : List Char) (hv : Nat)
    (h1 : hexDigitVal d1 = some hv) (h2 : hexDigitVal d2 = none) :
    hex_escapes ('\\' :: 'x' :: d1 :: d2 :: rest4) = Except.error (-2) := by
  rw [hex_escapes.eq_5, h1, h2]

theorem hex_escapes_x_ok (d1 d2 : Char) (rest4 : List Char) (hv lv : Nat)
    (h1 : hexDigitVal d1 = some hv) (h2 : hexDigitVal d2 = some lv) :
    hex_escapes ('\\' :: 'x' :: d1 :: d2 :: rest4)
      = (hex_escapes rest4).map (fun bs => (hv * 16 + lv) :: bs) := by
  simp only [hex_escapes.eq_5, h1, h2]

theorem hex_escapes_copy_append : ∀ (pre t : List Char), (∀ a ∈ pre, a ≠ '\\') →
    hex_escapes (pre ++ t) = (hex_escapes t).map (fun bs => pre.map Char.toNat ++ bs) := by
  intro pre
  induction pre with
  | nil =>
    intro t h
    cases ht : hex_escapes t <;> simp [Except.map, ht]
  | cons a pre ih =>
    intro t h
    have ha : a ≠ '\\' := h a (List.mem_cons_self a pre)
    have hpre : ∀ x ∈ pre, x ≠ '\\' := fun x hx => h x (List.mem_cons_of_mem a hx)
    rw [List.cons_append, hex_escapes_plain a (pre ++ t) ha, ih t hpre]
    cases ht : hex_escapes t <;> simp [Except.map]

theorem hex_escapes_ok_append : ∀ (pre : List Char) (bs : List Nat),
    hex_escapes pre = Except.ok bs → ∀ t : List Char,
    hex_escapes (pre ++ t) = (hex_escapes t).map (fun ds => bs ++ ds) := by
  suffices H : ∀ (n : Nat) (pre : List Char), pre.length ≤ n → ∀ bs : List Nat,
      hex_escapes pre = Except.ok bs → ∀ t : List Char,
      hex_escapes (pre ++ t) = (hex_escapes t).map (fun ds => bs ++ ds) by
    exact fun pre bs h t => H pre.length pre le_rfl bs h t
  intro n
  induction n with
  | zero =>
    intro pre hlen bs h t
    have hpre : pre = [] := List.length_eq_zero.mp (by omega)
    subst hpre
    rw [show hex_escapes ([] : List Char) = Except.ok [] from rfl] at h
    injection h with h2
    subst h2
    rw [List.nil_append]
    cases ht : hex_escapes t <;> simp [ht, Except.map]
  | succ n ih =>
    intro pre hlen bs h t
    cases pre with
    | nil =>
      rw [show hex_escapes ([] : List Char) = Except.ok [] from rfl] at h
      injection h with h2
      subst h2
      rw [List.nil_append]
      cases ht : hex_escapes t <;> simp [ht, Except.map]
    | cons c rest =>
      simp only [List.length_cons] at hlen
      by_cases hc : c = '\\'
      · subst hc
        cases rest with
        | nil => rw [hex_escapes.eq_2] at h; exact Except.noConfusion h
        | cons e rest2 =>
          by_cases he : e = 'x'
          · subst he
            cases rest2 with
            | nil => rw [hex_escapes.eq_3] at h; exact Except.noConfusion h
            | cons d1 rest3 =>
              cases rest3 with
              | nil =>
                cases h1 : hexDigitVal d1 with
                | none => rw [hex_escapes.eq_4, h1] at h; exact Except.noConfusion h
                | some hv => rw [hex_escapes_x_one d1 hv h1] at h; exact Except.noConfusion h
              | cons d2 rest4 =>
                cases h1 : hexDigitVal d1 with
                | none =>
                  rw [hex_escapes_x_bad1 d1 d2 rest4 h1] at h
                  exact Except.noConfusion h
                | some hv =>
                  cases h2 : hexDigitVal d2 with
                  | none =>
                    rw [hex_escapes_x_bad2 d1 d2 rest4 hv h1 h2] at h
                    exact Except.noConfusion h
                  | some lv =>
                    rw [hex_escapes_x_ok d1 d2 rest4 hv lv h1 h2] at h
                    rcases (except_map_ok_iff _ _ _).mp h with ⟨bs4, h4, hbs⟩
                    rw [show ('\\' :: 'x' :: d1 :: d2 :: rest4) ++ t
                        = '\\' :: 'x' :: d1 :: d2 :: (rest4 ++ t) from rfl]
                    rw [hex_escapes_x_ok d1 d2 (rest4 ++ t) hv lv h1 h2]
                    rw [ih rest4 (by simp at hlen; omega) bs4 h4 t]
                    cases ht : hex_escapes t <;> simp [Except.map, hbs]
          · cases hb : escByte e with
            | none =>
              rw [hex_escapes_esc_bad e rest2 he hb] at h
              exact Except.noConfusion h
            | some b =>
              rw [hex_escapes_esc_ok e rest2 b he hb] at h
              rcases (except_map_ok_iff _ _ _).mp h with ⟨bs2, h2, hbs⟩
              rw [show ('\\' :: e :: rest2) ++ t = '\\' :: e :: (rest2 ++ t) from rfl]
              rw [hex_escapes_esc_ok e (rest2 ++ t) b he hb]
              rw [ih rest2 (by simp at hlen; omega) bs2 h2 t]
              cases ht : hex_escapes t <;> simp [Except.map, hbs]
      · rw [hex_escapes_plain c rest hc] at h
        rcases (except_map_ok_iff _ _ _).mp h with ⟨bs1, h1, hbs⟩
        rw [List.cons_append, hex_escapes_plain c (rest ++ t) hc]
        rw [ih rest (by omega) bs1 h1 t]
        cases ht : hex_escapes t <;> simp [Except.map, hbs]

theorem visLoop_stops : ∀ (outlen : Nat) (bs : List Nat) (next k : Nat), k ≤ bs.length →
    (∀ i, i < k → next + ((bs.take i).flatMap visEnc).length + 6 < outlen) →
    (k = bs.length ∨ ¬(next + ((bs.take k).flatMap visEnc).length + 6 < outlen)) →
    visLoop outlen bs next = (bs.take k).flatMap visEnc := by
  intro outlen bs
  induction bs with
  | nil =>
    intro next k hk h1 h2
    have hk0 : k = 0 := Nat.le_zero.mp (by simpa using hk)
    subst hk0
    simp [visLoop]
  | cons b rest ih =>
    intro next k hk h1 h2
    cases k with
    | zero =>
      rcases h2 with h2 | h2
      · simp only [List.length_cons] at h2; omega
      · have hg : ¬(next + 6 < outlen) := by simpa using h2
        simp [visLoop, hg]
    | succ k' =>
      have hg : next + 6 < outlen := by simpa using h1 0 (by omega)
      have hw : (if isprintB b then 1 else 4) = (visEnc b).length := by
        by_cases hp : isprintB b <;> simp [visEnc, hp]
      simp only [visLoop, if_pos hg]
      rw [List.take_succ_cons, List.flatMap_cons]
      congr 1
      rw [hw]
      apply ih (next + (visEnc b).length) k'
      · simp only [List.length_cons] at hk; omega
      · intro i hi
        have hstep := h1 (i + 1) (by omega)
        rw [List.take_succ_cons, List.flatMap_cons, List.length_append] at hstep
        omega
      · rcases h2 with h2 | h2
        · left; simp only [List.length_cons] at h2; omega
        · right
          rw [List.take_succ_cons, List.flatMap_cons, List.length_append] at h2
          omega

theorem visWritesLoop_lt (outlen : Nat) : ∀ (bs : List Nat) (next i : Nat),
    i ∈ visWritesLoop outlen bs next → i < outlen := by
  intro bs
  induction bs with
  | nil => intro next i hi; simp [visWritesLoop] at hi
  | cons b rest ih =>
    intro next i hi
    by_cases h6 : next + 6 < outlen
    · simp only [visWritesLoop, if_pos h6] at hi
      rcases List.mem_append.mp hi with hm | hm
      · by_cases hp : isprintB b <;> simp [hp] at hm <;> omega
      · exact ih _ i hm
    · simp [visWritesLoop, h6] at hi

/-! ## Claim theorems -/

/-- C1: the claim says the escape decoder maps `\t` to tab (0x09) so that
decoding the raw string `a\tb\x41` yields `[0x61, 0x09, 0x62, 0x41]`.
The code's `case 't'` actually stores carriage-return: evaluating
`hex_escapes` at that exact input succeeds with count 4 but produces
`[0x61, 0x0d, 0x62, 0x41]`, which differs from the claimed bytes. -/
theorem C1_escape_tab_eval :
    hex_escapes ['a', '\\', 't', 'b', '\\', 'x', '4', '1'] = Except.ok [0x61, 0x0d, 0x62, 0x41]
    ∧ ([0x61, 0x0d, 0x62, 0x41] : List Nat) ≠ [0x61, 0x09, 0x62, 0x41] :=
  ⟨rfl, by decide⟩

/-- C9: `gpsd_packetdump` of a NULL source returns the empty string; a
non-null zero-length source passes the printable scan (vacuously) and is
returned unchanged, hence also yields the empty string; and `gps_hexdump`
of a NULL or zero-length source writes an empty string, for every
destination capacity. -/
theorem C9_empty_inputs : ∀ c : Nat,
    gpsd_packetdump c none = []
    ∧ gpsd_packetdump c (some []) = []
    ∧ ([] : List Nat).all (fun b => isprintB b || isspaceB b) = true
    ∧ gps_hexdump c none = []
    ∧ gps_hexdump c (some []) = [] :=
  fun _ => ⟨rfl, rfl, rfl, rfl, rfl⟩

/-- C5: the three failure modes of `hex_escapes` are terminal and return
distinct negative codes: a malformed first hex digit after `\x` yields -1
(BadHexHighNibble), a malformed second hex digit yields -2
(BadHexLowNibble), and an unrecognized character after a backslash yields
-3 (UnknownEscape); in particular decoding `a\q` fails with -3, which is
distinct from the other two codes. -/
theorem C5_escape_error_codes :
    (∀ (pre : List Char) (c : Char) (rest : List Char), (∀ a ∈ pre, a ≠ '\\') →
      hexDigitVal c = none → hex_escapes (pre ++ '\\' :: 'x' :: c :: rest) = Except.error (-1))
    ∧ (∀ (pre : List Char) (c d : Char) (rest : List Char), (∀ a ∈ pre, a ≠ '\\') →
      (hexDigitVal c).isSome → hexDigitVal d = none →
      hex_escapes (pre ++ '\\' :: 'x' :: c :: d :: rest) = Except.error (-2))
    ∧ (∀ (pre : List Char) (c : Char) (rest : List Char), (∀ a ∈ pre, a ≠ '\\') →
      c ≠ 'x' → escByte c = none → hex_escapes (pre ++ '\\' :: c :: rest) = Except.error (-3))
    ∧ hex_escapes ['a', '\\', 'q'] = Except.error (-3)
    ∧ ((-3 : Int) ≠ -1 ∧ (-3 : Int) ≠ -2 ∧ (-1 : Int) ≠ -2) := by
  refine ⟨?_, ?_, ?_, rfl, by decide⟩
  · intro pre c rest hpre hc
    rw [hex_escapes_copy_append pre _ hpre, hex_escapes_x_bad1_any c rest hc]
    rfl
  · intro pre c d rest hpre hc hd
    rcases Option.isSome_iff_exists.mp hc with ⟨hv, hv_eq⟩
    rw [hex_escapes_copy_append pre _ hpre, hex_escapes_x_bad2 c d rest hv hv_eq hd]
    rfl
  · intro pre c rest hpre hcx hcb
    rw [hex_escapes_copy_append pre _ hpre, hex_escapes_esc_bad c rest hcx hcb]
    rfl

/-- C5 witness: the three failure modes at concrete inputs `a\xg`,
`a\x4g` and `a\q`. -/
theorem C5_escape_error_codes_witness :
    hex_escapes (['a'] ++ '\\' :: 'x' :: 'g' :: []) = Except.error (-1)
    ∧ hex_escapes (['a'] ++ '\\' :: 'x' :: '4' :: 'g' :: []) = Except.error (-2)
    ∧ hex_escapes (['a'] ++ '\\' :: 'q' :: []) = Except.error (-3) :=
  ⟨C5_escape_error_codes.1 ['a'] 'g' [] (by decide) (by decide),
   C5_escape_error_codes.2.1 ['a'] '4' 'g' [] (by decide) (by decide) (by decide),
   C5_escape_error_codes.2.2.1 ['a'] 'q' [] (by decide) (by decide) (by decide)⟩

/-- C10: an input that ends mid-escape fails with a definite code because
the escape dispatch consumes the NUL terminator and falls into the
corresponding `default` branch: appending a lone escape-starting backslash
to any fully decodable prefix yields -3 (UnknownEscape); appending `\x`
yields -1 (BadHexHighNibble); appending `\x` plus one valid hex digit
yields -2 (BadHexLowNibble). -/
theorem C10_truncated_escapes :
    (∀ (pre : List Char) (bs : List Nat), hex_escapes pre = Except.ok bs →
      hex_escapes (pre ++ ['\\']) = Except.error (-3))
    ∧ (∀ (pre : List Char) (bs : List Nat), hex_escapes pre = Except.ok bs →
      hex_escapes (pre ++ ['\\', 'x']) = Except.error (-1))
    ∧ (∀ (pre : List Char) (bs : List Nat) (d : Char) (v : Nat), hex_escapes pre = Except.ok bs →
      hexDigitVal d = some v → hex_escapes (pre ++ ['\\', 'x', d]) = Except.error (-2)) := by
  refine ⟨?_, ?_, ?_⟩
  · intro pre bs h
    rw [hex_escapes_ok_append pre bs h ['\\'], hex_escapes.eq_2]
    rfl
  · intro pre bs h
    rw [hex_escapes_ok_append pre bs h ['\\', 'x'], hex_escapes.eq_3]
    rfl
  · intro pre bs d v h hd
    rw [hex_escapes_ok_append pre bs h ['\\', 'x', d], hex_escapes_x_one d v hd]
    rfl

/-- C10 witness: the three truncated-escape endings after the decodable
prefix `a`. -/
theorem C10_truncated_escapes_witness :
    hex_escapes (['a'] ++ ['\\']) = Except.error (-3)
    ∧ hex_escapes (['a'] ++ ['\\', 'x']) = Except.error (-1)
    ∧ hex_escapes (['a'] ++ ['\\', 'x', '4']) = Except.error (-2) :=
  ⟨C10_truncated_escapes.1 ['a'] [97] rfl,
   C10_truncated_escapes.2.1 ['a'] [97] rfl,
   C10_truncated_escapes.2.2 ['a'] [97] '4' 4 rfl (by decide)⟩

/-- C3 (amended): for destination capacities `c ≥ 3` (`gps_hexdump`) and
`c ≥ 1` (`gps_visibilize`), with `c` a representable `size_t`, every store
— hex pairs, copied/escaped characters, and every NUL — lands at an index
strictly below `c`.  The claim's "including c = 0, 1, 2" fails: below
those bounds the unsigned `scbuflen - 3` headroom subtraction wraps
(hexdump) and the unconditional initial NUL store (both functions) writes
at index 0 ≥ c (see the counterexample). -/
theorem C3_truncation_safety :
    (∀ (c : Nat) (binbuf : Option (List Nat)), 3 ≤ c → c < 2 ^ 64 →
      (gps_hexdump_writes c binbuf).all (fun i => decide (i < c)) = true)
    ∧ (∀ (c : Nat) (inbuf : List Nat), 1 ≤ c →
      (gps_visibilize_writes c inbuf).all (fun i => decide (i < c)) = true) := by
  constructor
  · intro c binbuf h3 h64
    cases binbuf with
    | none =>
      simp only [gps_hexdump_writes, List.all_cons, List.all_nil, Bool.and_true]
      simpa using (by omega : 0 < c)
    | some bs =>
      by_cases hb : bs.length = 0
      · simp only [gps_hexdump_writes, if_pos hb, List.all_cons, List.all_nil, Bool.and_true]
        simpa using (by omega : 0 < c)
      · simp only [gps_hexdump_writes, if_neg hb]
        rw [wsub64_sub c h3 h64, List.all_eq_true]
        intro i hi
        rw [decide_eq_true_eq]
        have hlt := hexdumpWritesLoop_lt (c - 3) (bs.take (min bs.length MAX_PACKET_LENGTH)) 0
          (by omega) i hi
        omega
  · intro c inbuf h1
    simp only [gps_visibilize_writes]
    rw [List.all_eq_true]
    intro i hi
    rw [decide_eq_true_eq]
    rcases List.mem_cons.mp hi with rfl | hm
    · omega
    · exact visWritesLoop_lt c inbuf 0 i hm

/-- C3 witness: all stores land below the capacity for `gps_hexdump` at
capacity 3 and `gps_visibilize` at capacity 1. -/
theorem C3_truncation_safety_witness :
    (gps_hexdump_writes 3 (some [171])).all (fun i => decide (i < 3)) = true
    ∧ (gps_visibilize_writes 1 [5]).all (fun i => decide (i < 1)) = true :=
  ⟨C3_truncation_safety.1 3 (some [171]) (by decide) (by decide),
   C3_truncation_safety.2 1 [5] (by decide)⟩

/-- C3 counterexample: at capacity 2 `gps_hexdump` stores to indices 0, 1
and 2 (the wrapped `scbuflen - 3` bound never stops the loop), and at
capacity 0 `gps_visibilize` still stores its initial NUL at index 0, so
the claim's "including c = 0, 1, 2" is false. -/
theorem C3_truncation_safety_counterexample :
    (gps_hexdump_writes 2 (some [2])).all (fun i => decide (i < 2)) = false
    ∧ (gps_visibilize_writes 0 ([] : List Nat)).all (fun i => decide (i < 0)) = false :=
  ⟨rfl, rfl⟩

/-- C7 (amended): `gps_visibilize` copies each printable byte (per the
`isprintB` predicate it shares with `gpsd_packetdump`) as one character
and renders each non-printable byte as the 4-character lowercase escape
`\xHH`; iteration stops exactly when the source is exhausted or when the
code's guard `next + 6 < capacity` first fails — the worst-case 4
characters, their terminator, and one further byte of headroom must all
fit strictly below the capacity, which is one byte stricter at the
boundary than the claim's "would not fit within capacity − 1" — and the
partial output up to that point is retained (and NUL-terminated, per the
writes model).  The theorem characterizes the output for every stopping
point `k`: whenever the guard holds before `k` and `k` is the source
length or the first guard failure, the output is exactly the first `k`
source bytes rendered; the claim's example yields `\x00A\xff`, and at
capacity 10 the loop keeps only the first escape. -/
theorem C7_visibilize :
    (∀ (outlen : Nat) (bs : List Nat) (k : Nat), k ≤ bs.length →
      (∀ i, i < k → ((bs.take i).flatMap visEnc).length + 6 < outlen) →
      (k = bs.length ∨ ¬(((bs.take k).flatMap visEnc).length + 6 < outlen)) →
      gps_visibilize outlen bs = (bs.take k).flatMap visEnc)
    ∧ gps_visibilize 64 [0, 65, 255] = ['\\', 'x', '0', '0', 'A', '\\', 'x', 'f', 'f']
    ∧ gps_visibilize 10 [0, 0, 0] = ['\\', 'x', '0', '0'] := by
  refine ⟨?_, rfl, rfl⟩
  intro outlen bs k hk h1 h2
  simp only [gps_visibilize]
  apply visLoop_stops outlen bs 0 k hk
  · intro i hi
    have := h1 i hi
    omega
  · rcases h2 with h2 | h2
    · exact Or.inl h2
    · exact Or.inr (by omega)

/-- C7 witness: the truncation case at capacity 10 — the guard passes
before index 1 and fails at index 1, so exactly the first escape is
kept. -/
theorem C7_visibilize_witness :
    gps_visibilize 10 [0, 0, 0] = (([0, 0, 0] : List Nat).take 1).flatMap visEnc :=
  C7_visibilize.1 10 [0, 0, 0] 1 (by decide) (by decide) (by decide)

/-- C7 counterexample: the claim's stop rule ("the next worst-case
4-character write would not fit within capacity − 1") is false of the
code.  At capacity 10 with `[0, 0, 0]`, after the first escape
(`next = 4`) a second escape at indices 4..7 plus its terminator at 8
fits within capacity − 1 = 9, so the claimed rule (modelled as
`gps_visibilize_claimed`) renders two escapes — but the code's
`next + 6 < outlen` guard stops after one. -/
theorem C7_visibilize_counterexample :
    gps_visibilize 10 [0, 0, 0] = ['\\', 'x', '0', '0']
    ∧ gps_visibilize_claimed 10 [0, 0, 0] = ['\\', 'x', '0', '0', '\\', 'x', '0', '0']
    ∧ gps_visibilize 10 [0, 0, 0] ≠ gps_visibilize_claimed 10 [0, 0, 0] :=
  ⟨rfl, rfl, by decide⟩

/-- C8 (amended): whenever the capacity `c` admits every pair plus the
loop's 3-byte headroom (`c ≥ 2·min(len, MAX_PACKET_LENGTH) + 2`, `c` a
representable `size_t`), the string `gps_hexdump` writes is exactly the
pairwise hex encoding of the first `min(len, MAX_PACKET_LENGTH)` source
bytes — `2·min(len, MAX_PACKET_LENGTH)` hex characters — and its store
footprint is those character cells followed by exactly one terminator
at the next index.  Without the capacity bound the claim's "for every
destination capacity" fails by truncation (see the counterexample). -/
theorem C8_encode_length : ∀ (c : Nat) (bs : List Nat),
    2 * min bs.length MAX_PACKET_LENGTH + 2 ≤ c → c < 2 ^ 64 →
    gps_hexdump c (some bs) = (bs.take (min bs.length MAX_PACKET_LENGTH)).flatMap hexPairEnc
    ∧ (gps_hexdump c (some bs)).length = 2 * min bs.length MAX_PACKET_LENGTH
    ∧ gps_hexdump_writes c (some bs)
      = List.range (2 * min bs.length MAX_PACKET_LENGTH)
          ++ [2 * min bs.length MAX_PACKET_LENGTH] := by
  intro c bs hcap h64
  by_cases hb : bs.length = 0
  · have hbs : bs = [] := List.length_eq_zero.mp hb
    subst hbs
    exact ⟨rfl, rfl, rfl⟩
  · have hmin1 : 1 ≤ min bs.length MAX_PACKET_LENGTH := by
      have h1 : 1 ≤ bs.length := Nat.pos_of_ne_zero hb
      have h2 : 1 ≤ MAX_PACKET_LENGTH := by decide
      omega
    have h3 : 3 ≤ c := by omega
    have hlen_take : (bs.take (min bs.length MAX_PACKET_LENGTH)).length
        = min bs.length MAX_PACKET_LENGTH := by
      rw [List.length_take]
      exact Nat.min_eq_left (Nat.min_le_left _ _)
    have hdump : gps_hexdump c (some bs)
        = (bs.take (min bs.length MAX_PACKET_LENGTH)).flatMap hexPairEnc := by
      simp only [gps_hexdump, if_neg hb]
      rw [wsub64_sub c h3 h64]
      exact hexdumpLoop_full _ (c - 3) 0 (by rw [hlen_take]; omega)
    have hwrites : gps_hexdump_writes c (some bs)
        = List.range (2 * min bs.length MAX_PACKET_LENGTH)
            ++ [2 * min bs.length MAX_PACKET_LENGTH] := by
      simp only [gps_hexdump_writes, if_neg hb]
      rw [wsub64_sub c h3 h64]
      rw [hexdumpWritesLoop_full _ (c - 3) 0 (by rw [hlen_take]; omega)]
      rw [hlen_take, List.range_eq_range']
      simp
    refine ⟨hdump, ?_, hwrites⟩
    rw [hdump, length_flatMap_hexPairEnc, hlen_take]

/-- C8 witness: one byte, capacity 7: the output is the two hex
characters of the byte. -/
theorem C8_encode_length_witness :
    (gps_hexdump 7 (some [171])).length = 2 * min ([171] : List Nat).length MAX_PACKET_LENGTH :=
  (C8_encode_length 7 [171] (by decide) (by decide)).2.1

/-- C8 counterexample: with capacity 5 and a 2-byte source the loop stops
after one pair, so the output is 2 characters, not the claimed
`2 × min(2, MAX_PACKET_LENGTH) = 4` — the claim fails for small
capacities. -/
theorem C8_encode_length_counterexample :
    gps_hexdump 5 (some [171, 205]) = ['a', 'b']
    ∧ (gps_hexdump 5 (some [171, 205])).length
      ≠ 2 * min ([171, 205] : List Nat).length MAX_PACKET_LENGTH := by
  exact ⟨rfl, by decide⟩

/-- C2 (amended): for every non-empty byte buffer `b` of at most
`BUFSIZ / 2 = 4096` bytes (so that the decoder's `strnlen(·, BUFSIZ)` cap
sees the whole hex string), with encode capacity `c ≥ 2·len(b) + 2` and
decode capacity exactly `len(b)`, decoding the encoding succeeds,
returns `len(b)`, and reproduces `b` exactly.  The claim's "every buffer
with length ≤ MAX_PACKET_LENGTH (including the empty buffer)" fails at
the empty buffer (pairs < 1 → InvalidLength) and above 4096 bytes (the
`strnlen` cap truncates; see the counterexample). -/
theorem C2_roundtrip : ∀ (b : List Nat) (c : Nat),
    1 ≤ b.length → b.length ≤ BUFSIZ / 2 → (∀ x ∈ b, x < 256) →
    2 * b.length + 2 ≤ c → c < 2 ^ 64 →
    gps_hexpack (gps_hexdump c (some b)) b.length = Except.ok (b.length, b) := by
  intro b c h1 h2 h256 hcap h64
  have hble : b.length ≤ 4096 := by
    have : BUFSIZ / 2 = 4096 := by decide
    omega
  have hmin : min b.length MAX_PACKET_LENGTH = b.length := by
    apply Nat.min_eq_left
    have : MAX_PACKET_LENGTH = 9216 := rfl
    omega
  have hlen0 : ¬(b.length = 0) := by omega
  have hdump : gps_hexdump c (some b) = b.flatMap hexPairEnc := by
    simp only [gps_hexdump, if_neg hlen0]
    rw [hmin, List.take_length, wsub64_sub c (by omega) h64]
    exact hexdumpLoop_full b (c - 3) 0 (by omega)
  rw [hdump]
  have hsrc_len : (b.flatMap hexPairEnc).length = 2 * b.length := length_flatMap_hexPairEnc b
  have hj : min (b.flatMap hexPairEnc).length BUFSIZ / 2 = b.length := by
    rw [hsrc_len]
    have : min (2 * b.length) BUFSIZ = 2 * b.length := by
      apply Nat.min_eq_left
      have : BUFSIZ = 8192 := rfl
      omega
    rw [this]
    omega
  simp only [gps_hexpack, hj]
  rw [if_neg (by omega : ¬(b.length < 1 ∨ b.length < b.length))]
  rw [packPairs_flatMap b h256]
  simp

/-- C2 witness: the round trip at the one-byte buffer `[0xab]` with
encode capacity 5. -/
theorem C2_roundtrip_witness :
    gps_hexpack (gps_hexdump 5 (some [171])) 1 = Except.ok (1, [171]) :=
  C2_roundtrip [171] 5 (by decide) (by decide) (by decide) (by decide) (by decide)

/-- C2 counterexample: the empty buffer round-trips to InvalidLength (-2)
instead of succeeding, and a 4097-byte buffer (within the claimed
MAX_PACKET_LENGTH bound) decodes to only 4096 bytes because `strnlen`
caps the 8194-character hex string at BUFSIZ = 8192. -/
theorem C2_roundtrip_counterexample :
    gps_hexpack (gps_hexdump 64 (some ([] : List Nat))) 64 = Except.error (-2)
    ∧ (gps_hexpack (gps_hexdump 8197 (some (List.replicate 4097 170))) 4097).toOption.map Prod.fst
      = some 4096
    ∧ (List.replicate 4097 (170 : Nat)).length = 4097 := by
  refine ⟨rfl, ?_, by rw [List.length_replicate]⟩
  have hlen : (List.replicate 4097 (170 : Nat)).length = 4097 := by rw [List.length_replicate]
  have hdump : gps_hexdump 8197 (some (List.replicate 4097 170)) = List.replicate 8194 'a' := by
    simp only [gps_hexdump]
    rw [if_neg (by rw [hlen]; omega)]
    rw [hlen]
    rw [show min 4097 MAX_PACKET_LENGTH = 4097 from by decide]
    rw [List.take_replicate, show min 4097 4097 = 4097 from by omega]
    rw [wsub64_sub 8197 (by omega) (by decide)]
    rw [hexdumpLoop_full (List.replicate 4097 170) (8197 - 3) 0 (by rw [hlen]; omega)]
    rw [flatMap_hexPairEnc_replicate170 4097]
  rw [hdump]
  have hj : min (List.replicate 8194 'a').length BUFSIZ / 2 = 4096 := by
    rw [List.length_replicate]
    decide
  simp only [gps_hexpack, hj]
  rw [if_neg (by omega)]
  rw [packPairs_replicate_a 4096 8194 (by omega)]
  rfl

/-- C4: `gps_hexpack` returns -2 (InvalidLength) exactly when the pair
count `strnlen(src, BUFSIZ) / 2` is below 1 or above the destination
capacity; otherwise it returns -1 (InvalidDigit) exactly when some
character among the first `2·pairs` source characters is not a hex digit;
in particular `decode("abcdef", dst, 2)` fails with -2 and
`decode("12g4", dst, 4)` fails with -1. -/
theorem C4_decode_errors :
    (∀ (src : List Char) (len : Nat),
      gps_hexpack src len = Except.error (-2)
        ↔ (min src.length BUFSIZ / 2 < 1 ∨ len < min src.length BUFSIZ / 2))
    ∧ (∀ (src : List Char) (len : Nat),
      ¬(min src.length BUFSIZ / 2 < 1 ∨ len < min src.length BUFSIZ / 2) →
      (gps_hexpack src len = Except.error (-1)
        ↔ (src.take (2 * (min src.length BUFSIZ / 2))).any
            (fun ch => (hexDigitVal ch).isNone) = true))
    ∧ gps_hexpack ['a', 'b', 'c', 'd', 'e', 'f'] 2 = Except.error (-2)
    ∧ gps_hexpack ['1', '2', 'g', '4'] 4 = Except.error (-1) := by
  refine ⟨?_, ?_, rfl, rfl⟩
  · intro src len
    simp only [gps_hexpack]
    by_cases hcond : (min src.length BUFSIZ / 2 < 1 ∨ len < min src.length BUFSIZ / 2)
    · rw [if_pos hcond]
      exact iff_of_true rfl hcond
    · rw [if_neg hcond]
      cases hp : packPairs (min src.length BUFSIZ / 2) src with
      | none =>
        exact iff_of_false (by intro hE; injection hE with h'; exact absurd h' (by decide)) hcond
      | some ds =>
        exact iff_of_false (by intro hE; exact Except.noConfusion hE) hcond
  · intro src len hcond
    have h2j : 2 * (min src.length BUFSIZ / 2) ≤ src.length := pairs_le src.length
    have hiff := packPairs_none_iff (min src.length BUFSIZ / 2) src h2j
    simp only [gps_hexpack]
    rw [if_neg hcond]
    cases hp : packPairs (min src.length BUFSIZ / 2) src with
    | none => exact iff_of_true rfl (hiff.mp hp)
    | some ds =>
      refine iff_of_false (by intro hE; exact Except.noConfusion hE) ?_
      intro hany
      have hnone := hiff.mpr hany
      rw [hp] at hnone
      exact Option.noConfusion hnone

/-- C4 witness: the InvalidDigit characterization instantiated at the
claim's own example `12g4` with capacity 4. -/
theorem C4_decode_errors_witness :
    gps_hexpack ['1', '2', 'g', '4'] 4 = Except.error (-1)
      ↔ ((['1', '2', 'g', '4'] : List Char).take
            (2 * (min (['1', '2', 'g', '4'] : List Char).length BUFSIZ / 2))).any
          (fun ch => (hexDigitVal ch).isNone) = true :=
  C4_decode_errors.2.1 ['1', '2', 'g', '4'] 4 (by decide)

/-- C6 (amended): whenever `gps_hexpack` succeeds it returns exactly
`strnlen(src, BUFSIZ) / 2` — the number of decoded pairs, which equals
`floor(len(src)/2)` for sources up to BUFSIZ characters but is capped at
`BUFSIZ / 2 = 4096` beyond that — the count never exceeds the destination
capacity, the destination holds exactly `capacity` bytes, and every byte
from the decoded count up to the capacity is zero.  The claim's
uncapped "returns exactly floor(len(source)/2)" fails for sources longer
than BUFSIZ (see the counterexample). -/
theorem C6_decode_success : ∀ (src : List Char) (len j : Nat) (ds : List Nat),
    gps_hexpack src len = Except.ok (j, ds) →
    j = min src.length BUFSIZ / 2 ∧ j ≤ len ∧ ds.length = len
      ∧ ds.drop j = List.replicate (len - j) 0 := by
  intro src len j ds h
  simp only [gps_hexpack] at h
  by_cases hcond : (min src.length BUFSIZ / 2 < 1 ∨ len < min src.length BUFSIZ / 2)
  · rw [if_pos hcond] at h
    exact Except.noConfusion h
  · rw [if_neg hcond] at h
    cases hp : packPairs (min src.length BUFSIZ / 2) src with
    | none => rw [hp] at h; exact Except.noConfusion h
    | some t =>
      rw [hp] at h
      injection h with h'
      have hj : min src.length BUFSIZ / 2 = j := congrArg Prod.fst h'
      have hds : t ++ List.replicate (len - min src.length BUFSIZ / 2) 0 = ds :=
        congrArg Prod.snd h'
      have htlen : t.length = min src.length BUFSIZ / 2 := packPairs_length _ src t hp
      refine ⟨hj.symm, by omega, ?_, ?_⟩
      · rw [← hds]
        simp only [List.length_append, List.length_replicate, htlen]
        omega
      · rw [← hds, ← hj, ← htlen, List.drop_left]

/-- C6 witness: decoding `aa` into a 3-byte destination returns count 1
with the remaining two destination bytes zero-filled. -/
theorem C6_decode_success_witness :
    1 = min (['a', 'a'] : List Char).length BUFSIZ / 2 ∧ 1 ≤ 3
      ∧ ([170, 0, 0] : List Nat).length = 3
      ∧ ([170, 0, 0] : List Nat).drop 1 = List.replicate (3 - 1) 0 :=
  C6_decode_success ['a', 'a'] 3 1 [170, 0, 0] rfl

/-- C6 counterexample: an all-hex source of 8194 characters decodes
successfully to 4096 bytes (the `strnlen(·, BUFSIZ)` cap), not the
claimed `floor(8194 / 2) = 4097`. -/
theorem C6_decode_success_counterexample :
    (gps_hexpack (List.replicate 8194 'a') 4200).toOption.map Prod.fst = some 4096
    ∧ (List.replicate 8194 'a').length / 2 = 4097 := by
  constructor
  · have hj : min (List.replicate 8194 'a').length BUFSIZ / 2 = 4096 := by
      rw [List.length_replicate]
      decide
    simp only [gps_hexpack, hj]
    rw [if_neg (by omega)]
    rw [packPairs_replicate_a 4096 8194 (by omega)]
    rfl
  · rw [List.length_replicate]
